import Mathlib

/-!
Verification of the pointer-bumping allocator (`src/pb-alloc.c`).

The allocator keeps three process-wide variables, `start_addr`, `end_addr`
and `free_addr` (all `intptr_t`, initially 0), plus the bytes of the
`mmap`-ed heap region.  We model addresses and `size_t` values as `Nat`,
taking residues modulo `2 ^ 64` exactly where the C code's 64-bit
arithmetic wraps — in particular the cursor bump
`new_free_addr = free_addr + total_size`, whose `intptr_t` result is then
compared against `end_addr` as a *signed* value (`toSigned`) — and the
heap contents as a function from addresses to bytes.  Entry points take
the address that `mmap` would return as an extra parameter `h`; it is
consulted only on the lazy first initialization.
-/

namespace PbAlloc

/-- Width of `size_t` and pointers: values wrap modulo `2 ^ 64`. -/
def W64 : Nat := 2 ^ 64

/-- The macro `DBL_WORD_SIZE` of `pb-alloc.c`. -/
def DBL_WORD_SIZE : Nat := 16

/-- Size of `header_s` — a single `size_t` field. -/
def HEADER_SIZE : Nat := 8

/-- The macro `HEAP_SIZE` of `pb-alloc.c`: two gigabytes. -/
def HEAP_SIZE : Nat := 2 * 1024 * 1024 * 1024

/-- The signed (`intptr_t`) reading of a 64-bit pattern: values at or above
`2 ^ 63` are negative.  The C comparison `new_free_addr > end_addr` compares
the two `intptr_t` values, i.e. the signed readings. -/
def toSigned (n : Nat) : Int :=
  if n < 2 ^ 63 then (n : Int) else (n : Int) - 2 ^ 64

/-- The allocator's global state: the three cursor globals of `pb-alloc.c`
plus the bytes of the heap region (address ↦ byte). -/
structure AllocState where
  free_addr : Nat
  start_addr : Nat
  end_addr : Nat
  mem : Nat → Nat

/-- Write the 8 bytes of a `size_t` value little-endian at `a`
(the effect of `header_ptr->size = v`). -/
def storeSize (m : Nat → Nat) (a v : Nat) : Nat → Nat :=
  fun x => if a ≤ x ∧ x < a + HEADER_SIZE then v / 256 ^ (x - a) % 256 else m x

/-- Read a `size_t` little-endian at `a` (the effect of `old_header->size`). -/
def loadSize (m : Nat → Nat) (a : Nat) : Nat :=
  m a % 256 +
    256 * (m (a + 1) % 256 +
      256 * (m (a + 2) % 256 +
        256 * (m (a + 3) % 256 +
          256 * (m (a + 4) % 256 +
            256 * (m (a + 5) % 256 +
              256 * (m (a + 6) % 256 +
                256 * (m (a + 7) % 256)))))))

/-- Model of `memcpy(dst, src, n)` on the byte map (source and destination are
disjoint at every call site in `pb-alloc.c`). -/
def memcpy (m : Nat → Nat) (dst src n : Nat) : Nat → Nat :=
  fun x => if dst ≤ x ∧ x < dst + n then m (src + (x - dst)) else m x

/-- Model of `memset(dst, v, n)` on the byte map. -/
def memset (m : Nat → Nat) (dst v n : Nat) : Nat → Nat :=
  fun x => if dst ≤ x ∧ x < dst + n then v % 256 else m x

/-- Model of `init()`: if `start_addr == 0`, reserve the heap at the address `h`
returned by `mmap` and set the three globals; otherwise do nothing.
(An `mmap` failure aborts the process via `ERROR`, so only successful
reservations yield a post-state.) -/
def init (h : Nat) (s : AllocState) : AllocState :=
  if s.start_addr = 0 then
    { s with start_addr := h, end_addr := h + HEAP_SIZE, free_addr := h }
  else s

/-- The alignment padding computed in `malloc`:
`(sizeof(header_s) + DBL_WORD_SIZE - (free_addr % DBL_WORD_SIZE)) % DBL_WORD_SIZE`. -/
def padding (free_addr : Nat) : Nat :=
  (HEADER_SIZE + DBL_WORD_SIZE - free_addr % DBL_WORD_SIZE) % DBL_WORD_SIZE

/-- Model of `malloc(size)`: initialize, advance the cursor by the alignment padding,
fail on `size == 0`, compute `total_size = size + sizeof(header_s)` in
`size_t` arithmetic, then bump the cursor: `free_addr + total_size` is
computed in 64-bit arithmetic (it wraps modulo `2 ^ 64`) and compared
against `end_addr` as a signed `intptr_t` value; fail (leaving the padded
cursor) when the bumped cursor passes `end_addr`, otherwise commit the
(possibly wrapped) cursor, write the header and return the payload
pointer. -/
def malloc (h size : Nat) (s0 : AllocState) : Option Nat × AllocState :=
  let s := init h s0
  let free1 := s.free_addr + padding s.free_addr
  let s1 := { s with free_addr := free1 }
  if size = 0 then
    (none, s1)
  else
    let total_size := (size + HEADER_SIZE) % W64
    let header_ptr := free1
    let block_ptr := free1 + HEADER_SIZE
    let new_free_addr := (free1 + total_size) % W64
    if toSigned s1.end_addr < toSigned new_free_addr then
      (none, s1)
    else
      (some block_ptr,
       { s1 with
           free_addr := new_free_addr,
           mem := storeSize s1.mem header_ptr size })

/-- Model of `free(ptr)`: emits an (optionally compiled-out) debug trace and does
nothing else — no global or heap byte changes. -/
def free (ptr : Nat) (s : AllocState) : AllocState :=
  s

/-- Model of `calloc(nmemb, size)`: `block_size = nmemb * size` in `size_t`
arithmetic, delegate to `malloc`, and zero the block on success. -/
def calloc (h nmemb size : Nat) (s : AllocState) : Option Nat × AllocState :=
  let block_size := nmemb * size % W64
  let r := malloc h block_size s
  match r.1 with
  | some p => (some p, { r.2 with mem := memset r.2.mem p 0 block_size })
  | none => r

/-- Model of `realloc(ptr, size)`: null pointer delegates to `malloc`; zero size
frees and returns null; a size at most the stored one returns `ptr`
unchanged; otherwise allocate, copy the old `size` bytes, free the old
block and return the new pointer (null if the allocation failed). -/
def realloc (h : Nat) (ptr : Option Nat) (size : Nat) (s : AllocState) :
    Option Nat × AllocState :=
  match ptr with
  | none => malloc h size s
  | some p =>
    if size = 0 then
      (none, free p s)
    else
      let old_size := loadSize s.mem (p - HEADER_SIZE)
      if size ≤ old_size then
        (some p, s)
      else
        let r := malloc h size s
        match r.1 with
        | some new_p =>
            (some new_p, free p { r.2 with mem := memcpy r.2.mem new_p p old_size })
        | none => (none, r.2)

/-- One entry-point call, with the address `mmap` would hand back if the
call happens to be the one that initializes the region. -/
inductive Call where
  | mallocCall (h size : Nat)
  | freeCall (ptr : Nat)
  | callocCall (h nmemb size : Nat)
  | reallocCall (h : Nat) (ptr : Option Nat) (size : Nat)

/-- The post-state of one entry-point call. -/
def stepState : Call → AllocState → AllocState
  | Call.mallocCall h size, s => (malloc h size s).2
  | Call.freeCall ptr, s => free ptr s
  | Call.callocCall h nmemb size, s => (calloc h nmemb size s).2
  | Call.reallocCall h ptr size, s => (realloc h ptr size s).2

/-- A successful `mmap(NULL, …)` returns a nonzero, page-aligned address. -/
def MmapOk (h : Nat) : Prop :=
  h ≠ 0 ∧ h % 4096 = 0

/-- The `mmap` address a call carries is a plausible one. -/
def CallOk : Call → Prop
  | Call.mallocCall h _ => MmapOk h
  | Call.freeCall _ => True
  | Call.callocCall h _ _ => MmapOk h
  | Call.reallocCall h _ _ => MmapOk h

/-- States reachable from the pristine process state (all three globals 0,
arbitrary initial heap bytes) by entry-point calls. -/
inductive Reachable : AllocState → Prop where
  | start (m : Nat → Nat) : Reachable ⟨0, 0, 0, m⟩
  | step {s : AllocState} {c : Call} :
      Reachable s → CallOk c → Reachable (stepState c s)

/-- The cursor bump of a `malloc size` call stays in the signed-positive
range: padded cursor plus `size_t` total below `2 ^ 63`, so the 64-bit sum
neither wraps past `2 ^ 64` nor turns negative as an `intptr_t`. -/
def SumOk (h n : Nat) (s : AllocState) : Prop :=
  (init h s).free_addr + padding (init h s).free_addr + (n + HEADER_SIZE) % W64 < 2 ^ 63

/-- The call's internal `malloc` (if its path reaches one) satisfies
`SumOk`: `free` runs no `malloc`, and the non-growing `realloc` paths run
one only when the stored size is exceeded. -/
def CallSumOk : Call → AllocState → Prop
  | Call.mallocCall h n, s => SumOk h n s
  | Call.freeCall _, _ => True
  | Call.callocCall h m n, s => SumOk h (m * n % W64) s
  | Call.reallocCall h none n, s => SumOk h n s
  | Call.reallocCall h (some p) n, s =>
      n ≠ 0 → loadSize s.mem (p - HEADER_SIZE) < n → SumOk h n s

/-- States reachable from the pristine process state by entry-point calls
none of which wraps the cursor bump (every call satisfies `CallSumOk`). -/
inductive ReachableW : AllocState → Prop where
  | start (m : Nat → Nat) : ReachableW ⟨0, 0, 0, m⟩
  | step {s : AllocState} {c : Call} :
      ReachableW s → CallOk c → CallSumOk c s → ReachableW (stepState c s)

/-! ### Arithmetic facts about the alignment padding -/

theorem padding_lt (n : Nat) : padding n < DBL_WORD_SIZE := by
  simp only [padding, HEADER_SIZE, DBL_WORD_SIZE]
  omega

theorem padding_mod (n : Nat) : (n + padding n) % DBL_WORD_SIZE = HEADER_SIZE := by
  simp only [padding, HEADER_SIZE, DBL_WORD_SIZE]
  omega

theorem padding_eq_zero (n : Nat) (hn : n % DBL_WORD_SIZE = HEADER_SIZE) :
    padding n = 0 := by
  simp only [padding, HEADER_SIZE, DBL_WORD_SIZE] at *
  omega

/-! ### Facts about the signed reading of 64-bit patterns -/

theorem toSigned_of_lt {n : Nat} (h : n < 2 ^ 63) : toSigned n = (n : Int) := by
  rw [toSigned, if_pos h]

theorem le_of_toSigned_le {a e : Nat} (h : (a : Int) ≤ toSigned e) : a ≤ e := by
  unfold toSigned at h
  by_cases he : e < 2 ^ 63
  · rw [if_pos he] at h
    exact_mod_cast h
  · rw [if_neg he] at h
    omega

/-! ### Characterizations of `init` and `malloc` -/

theorem init_of_ne {s : AllocState} {h : Nat} (hz : s.start_addr ≠ 0) :
    init h s = s := by
  simp [init, hz]

theorem init_of_eq {s : AllocState} {h : Nat} (hz : s.start_addr = 0) :
    init h s =
      { s with start_addr := h, end_addr := h + HEAP_SIZE, free_addr := h } := by
  simp [init, hz]

theorem malloc_zero (h : Nat) (s : AllocState) :
    malloc h 0 s =
      (none,
       { init h s with
           free_addr := (init h s).free_addr + padding (init h s).free_addr }) := by
  simp [malloc]

theorem malloc_fail {h n : Nat} {s : AllocState} (hn : n ≠ 0)
    (hov : toSigned (init h s).end_addr <
      toSigned (((init h s).free_addr + padding (init h s).free_addr +
        (n + HEADER_SIZE) % W64) % W64)) :
    malloc h n s =
      (none,
       { init h s with
           free_addr := (init h s).free_addr + padding (init h s).free_addr }) := by
  simp only [malloc]
  rw [if_neg hn, if_pos hov]

theorem malloc_succ {h n : Nat} {s : AllocState} (hn : n ≠ 0)
    (hov : ¬ toSigned (init h s).end_addr <
      toSigned (((init h s).free_addr + padding (init h s).free_addr +
        (n + HEADER_SIZE) % W64) % W64)) :
    malloc h n s =
      (some ((init h s).free_addr + padding (init h s).free_addr + HEADER_SIZE),
       { init h s with
           free_addr :=
             ((init h s).free_addr + padding (init h s).free_addr +
               (n + HEADER_SIZE) % W64) % W64,
           mem :=
             storeSize (init h s).mem
               ((init h s).free_addr + padding (init h s).free_addr) n }) := by
  simp only [malloc]
  rw [if_neg hn, if_neg hov]

theorem calloc_none {h m n : Nat} {s : AllocState}
    (hr : (malloc h (m * n % W64) s).1 = none) :
    calloc h m n s = malloc h (m * n % W64) s := by
  simp only [calloc]
  rw [hr]

theorem calloc_some {h m n p : Nat} {s : AllocState}
    (hr : (malloc h (m * n % W64) s).1 = some p) :
    calloc h m n s =
      (some p,
       { (malloc h (m * n % W64) s).2 with
           mem := memset (malloc h (m * n % W64) s).2.mem p 0 (m * n % W64) }) := by
  simp only [calloc]
  rw [hr]

theorem realloc_none (h n : Nat) (s : AllocState) :
    realloc h none n s = malloc h n s := rfl

theorem realloc_free {h n : Nat} {p : Nat} {s : AllocState} (h0 : n = 0) :
    realloc h (some p) n s = (none, s) := by
  simp [realloc, free, h0]

theorem realloc_keep {h n p : Nat} {s : AllocState} (h0 : n ≠ 0)
    (hle : n ≤ loadSize s.mem (p - HEADER_SIZE)) :
    realloc h (some p) n s = (some p, s) := by
  simp [realloc, h0, hle]

theorem realloc_grow_some {h n p q : Nat} {s : AllocState} (h0 : n ≠ 0)
    (hgt : loadSize s.mem (p - HEADER_SIZE) < n)
    (hr : (malloc h n s).1 = some q) :
    realloc h (some p) n s =
      (some q,
       { (malloc h n s).2 with
           mem :=
             memcpy (malloc h n s).2.mem q p (loadSize s.mem (p - HEADER_SIZE)) }) := by
  simp only [realloc, free, if_neg h0, if_neg (Nat.not_le.mpr hgt)]
  rw [hr]

theorem realloc_grow_none {h n p : Nat} {s : AllocState} (h0 : n ≠ 0)
    (hgt : loadSize s.mem (p - HEADER_SIZE) < n)
    (hr : (malloc h n s).1 = none) :
    realloc h (some p) n s = (none, (malloc h n s).2) := by
  simp only [realloc, free, if_neg h0, if_neg (Nat.not_le.mpr hgt)]
  rw [hr]

/-! ### The region invariant and its preservation -/

/-- The region invariant maintained by every entry point: the cursor sits
between `start_addr` and `end_addr + HEADER_SIZE` (the padding advance can
overshoot `end_addr` by exactly the header size), the globals are zero
before initialization, and after initialization `start_addr` is double-word
aligned with `end_addr = start_addr + HEAP_SIZE`. -/
def Inv (s : AllocState) : Prop :=
  s.start_addr ≤ s.free_addr ∧
  s.free_addr ≤ s.end_addr + HEADER_SIZE ∧
  (s.start_addr = 0 → s.free_addr = 0 ∧ s.end_addr = 0) ∧
  (s.start_addr ≠ 0 →
    s.start_addr % DBL_WORD_SIZE = 0 ∧ s.end_addr = s.start_addr + HEAP_SIZE) ∧
  (s.end_addr < s.free_addr → s.free_addr % DBL_WORD_SIZE = HEADER_SIZE)

theorem init_inv {s : AllocState} {h : Nat} (hs : Inv s) (hh : MmapOk h) :
    Inv (init h s) ∧ s.free_addr ≤ (init h s).free_addr ∧
      (init h s).start_addr ≠ 0 ∧ (init h s).mem = s.mem := by
  obtain ⟨h1, h2, h3, h4, h5⟩ := hs
  obtain ⟨hh0, hh4096⟩ := hh
  by_cases hz : s.start_addr = 0
  · obtain ⟨hf0, he0⟩ := h3 hz
    rw [init_of_eq hz]
    refine ⟨⟨Nat.le_refl _, ?_, fun hc => absurd hc hh0, fun _ => ⟨?_, rfl⟩, ?_⟩,
      ?_, hh0, rfl⟩
    · show h ≤ h + HEAP_SIZE + HEADER_SIZE
      omega
    · show h % DBL_WORD_SIZE = 0
      simp only [DBL_WORD_SIZE]
      omega
    · intro hlt
      exact absurd hlt (by simp only [HEAP_SIZE]; omega)
    · show s.free_addr ≤ h
      omega
  · rw [init_of_ne hz]
    exact ⟨⟨h1, h2, h3, h4, h5⟩, Nat.le_refl _, hz, rfl⟩

theorem pad_inv {s : AllocState} (hs : Inv s) (hz : s.start_addr ≠ 0) :
    Inv { s with free_addr := s.free_addr + padding s.free_addr } := by
  obtain ⟨h1, h2, h3, h4, h5⟩ := hs
  obtain ⟨ha, he⟩ := h4 hz
  refine ⟨Nat.le_trans h1 (Nat.le_add_right _ _), ?_, fun hc => absurd hc hz,
    fun _ => ⟨ha, he⟩, ?_⟩
  · show s.free_addr + padding s.free_addr ≤ s.end_addr + HEADER_SIZE
    by_cases hle : s.free_addr ≤ s.end_addr
    · have hm := padding_mod s.free_addr
      have hl := padding_lt s.free_addr
      have hem : s.end_addr % DBL_WORD_SIZE = 0 := by
        rw [he]
        simp only [DBL_WORD_SIZE, HEAP_SIZE] at ha ⊢
        omega
      simp only [DBL_WORD_SIZE, HEADER_SIZE] at *
      omega
    · have hmod := h5 (Nat.lt_of_not_le hle)
      rw [padding_eq_zero _ hmod]
      exact h2
  · intro hlt
    show (s.free_addr + padding s.free_addr) % DBL_WORD_SIZE = HEADER_SIZE
    exact padding_mod s.free_addr

theorem malloc_inv {s : AllocState} {h n : Nat} (hs : Inv s) (hh : MmapOk h)
    (hg : SumOk h n s) :
    Inv (malloc h n s).2 ∧ s.free_addr ≤ (malloc h n s).2.free_addr := by
  obtain ⟨hi, hmono, hz, _⟩ := init_inv hs hh
  have hp := pad_inv hi hz
  by_cases h0 : n = 0
  · subst h0
    rw [malloc_zero]
    exact ⟨hp, Nat.le_trans hmono (Nat.le_add_right _ _)⟩
  · have hg' : (init h s).free_addr + padding (init h s).free_addr +
        (n + HEADER_SIZE) % W64 < 2 ^ 63 := hg
    have hmm : ((init h s).free_addr + padding (init h s).free_addr +
        (n + HEADER_SIZE) % W64) % W64 =
        (init h s).free_addr + padding (init h s).free_addr + (n + HEADER_SIZE) % W64 :=
      Nat.mod_eq_of_lt (Nat.lt_trans hg' (by decide))
    by_cases hov : toSigned (init h s).end_addr <
        toSigned (((init h s).free_addr + padding (init h s).free_addr +
          (n + HEADER_SIZE) % W64) % W64)
    · rw [malloc_fail h0 hov]
      exact ⟨hp, Nat.le_trans hmono (Nat.le_add_right _ _)⟩
    · rw [malloc_succ h0 hov]
      rw [hmm, toSigned_of_lt hg'] at hov
      have hle : (init h s).free_addr + padding (init h s).free_addr +
          (n + HEADER_SIZE) % W64 ≤ (init h s).end_addr :=
        le_of_toSigned_le (Int.not_lt.mp hov)
      obtain ⟨p1, p2, p3, p4, p5⟩ := hp
      rw [hmm]
      refine ⟨⟨Nat.le_trans p1 (Nat.le_add_right _ _), ?_, fun hc => absurd hc hz,
        p4, ?_⟩, ?_⟩
      · show (init h s).free_addr + padding (init h s).free_addr + (n + HEADER_SIZE) % W64 ≤
          (init h s).end_addr + HEADER_SIZE
        omega
      · intro hlt
        exact absurd hle (Nat.not_le.mpr hlt)
      · show s.free_addr ≤
          (init h s).free_addr + padding (init h s).free_addr + (n + HEADER_SIZE) % W64
        omega

theorem step_inv {s : AllocState} {c : Call} (hs : Inv s) (hc : CallOk c)
    (hg : CallSumOk c s) :
    Inv (stepState c s) ∧ s.free_addr ≤ (stepState c s).free_addr := by
  cases c with
  | mallocCall h n => exact malloc_inv hs hc hg
  | freeCall p => exact ⟨hs, Nat.le_refl _⟩
  | callocCall h m n =>
      have hm := malloc_inv (s := s) (h := h) (n := m * n % W64) hs hc hg
      show Inv (calloc h m n s).2 ∧ s.free_addr ≤ (calloc h m n s).2.free_addr
      cases hr : (malloc h (m * n % W64) s).1 with
      | some p =>
          rw [calloc_some hr]
          obtain ⟨⟨i1, i2, i3, i4, i5⟩, imono⟩ := hm
          exact ⟨⟨i1, i2, i3, i4, i5⟩, imono⟩
      | none =>
          rw [calloc_none hr]
          exact hm
  | reallocCall h ptr n =>
      show Inv (realloc h ptr n s).2 ∧ s.free_addr ≤ (realloc h ptr n s).2.free_addr
      cases ptr with
      | none => exact malloc_inv hs hc hg
      | some p =>
          by_cases h0 : n = 0
          · rw [realloc_free h0]
            exact ⟨hs, Nat.le_refl _⟩
          · by_cases hle : n ≤ loadSize s.mem (p - HEADER_SIZE)
            · rw [realloc_keep h0 hle]
              exact ⟨hs, Nat.le_refl _⟩
            · have hm := malloc_inv (s := s) (h := h) (n := n) hs hc
                (hg h0 (Nat.not_le.mp hle))
              cases hr : (malloc h n s).1 with
              | some q =>
                  rw [realloc_grow_some h0 (Nat.not_le.mp hle) hr]
                  obtain ⟨⟨i1, i2, i3, i4, i5⟩, imono⟩ := hm
                  exact ⟨⟨i1, i2, i3, i4, i5⟩, imono⟩
              | none =>
                  rw [realloc_grow_none h0 (Nat.not_le.mp hle) hr]
                  exact hm

theorem reachableW_inv {s : AllocState} (hs : ReachableW s) : Inv s := by
  induction hs with
  | start m =>
      exact ⟨Nat.le_refl _, by simp only [HEADER_SIZE]; omega, fun _ => ⟨rfl, rfl⟩,
        fun hc => absurd rfl hc, fun hc => absurd hc (by simp)⟩
  | step hr hc hg ih => exact (step_inv ih hc hg).1

/-! ### Further characterizations used by the claims -/

theorem malloc_start_end (h n : Nat) (s : AllocState) :
    (malloc h n s).2.start_addr = (init h s).start_addr ∧
    (malloc h n s).2.end_addr = (init h s).end_addr := by
  by_cases h0 : n = 0
  · subst h0
    rw [malloc_zero]
    exact ⟨rfl, rfl⟩
  · by_cases hov : toSigned (init h s).end_addr <
        toSigned (((init h s).free_addr + padding (init h s).free_addr +
          (n + HEADER_SIZE) % W64) % W64)
    · rw [malloc_fail h0 hov]
      exact ⟨rfl, rfl⟩
    · rw [malloc_succ h0 hov]
      exact ⟨rfl, rfl⟩

theorem init_start_ne {h : Nat} (s : AllocState) (hh : h ≠ 0) :
    (init h s).start_addr ≠ 0 := by
  by_cases hz : s.start_addr = 0
  · rw [init_of_eq hz]
    exact hh
  · rw [init_of_ne hz]
    exact hz

/-! ### Claim theorems -/

/-- C1, counterexample: Neither monotonicity nor `start ≤ cursor ≤ end`
holds after every entry-point call.  (a) From the reachable state produced
by `malloc(0)` on a fresh heap at 4096 (cursor 4104 after padding), the
call `malloc(2^64 - 24)` wraps the 64-bit cursor sum to 4088 and commits
it: the cursor *decreases* and drops *below* `start = 4096`.  (b) From the
reachable state with cursor `end - 4` (one big allocation), a further
`malloc(1)` advances the cursor by 12 bytes of alignment padding, to 8
bytes past `end`. -/
theorem C1_cursor_bound_counterexample :
    Reachable (stepState (Call.mallocCall 4096 0) ⟨0, 0, 0, fun _ => 0⟩) ∧
    CallOk (Call.mallocCall 4096 (2 ^ 64 - 24)) ∧
    (stepState (Call.mallocCall 4096 (2 ^ 64 - 24))
        (stepState (Call.mallocCall 4096 0) ⟨0, 0, 0, fun _ => 0⟩)).free_addr <
      (stepState (Call.mallocCall 4096 0) ⟨0, 0, 0, fun _ => 0⟩).free_addr ∧
    (stepState (Call.mallocCall 4096 (2 ^ 64 - 24))
        (stepState (Call.mallocCall 4096 0) ⟨0, 0, 0, fun _ => 0⟩)).free_addr <
      (stepState (Call.mallocCall 4096 (2 ^ 64 - 24))
        (stepState (Call.mallocCall 4096 0) ⟨0, 0, 0, fun _ => 0⟩)).start_addr ∧
    Reachable (stepState (Call.mallocCall 4096 (2 ^ 31 - 20)) ⟨0, 0, 0, fun _ => 0⟩) ∧
    CallOk (Call.mallocCall 4096 1) ∧
    (stepState (Call.mallocCall 4096 1)
        (stepState (Call.mallocCall 4096 (2 ^ 31 - 20)) ⟨0, 0, 0, fun _ => 0⟩)).end_addr <
      (stepState (Call.mallocCall 4096 1)
        (stepState (Call.mallocCall 4096 (2 ^ 31 - 20)) ⟨0, 0, 0, fun _ => 0⟩)).free_addr := by
  refine ⟨Reachable.step (Reachable.start _) ⟨by decide, by decide⟩,
    ⟨by decide, by decide⟩, ?_, ?_,
    Reachable.step (Reachable.start _) ⟨by decide, by decide⟩,
    ⟨by decide, by decide⟩, ?_⟩
  · decide
  · decide
  · decide

/-- C1, amended: For every state reachable by calls none of which wraps the
cursor bump (padded cursor plus `size_t` total below `2 ^ 63`), and every
further such call, the cursor after the call is at least the cursor before
it (monotone non-decreasing), and satisfies
`start ≤ cursor ≤ end + HEADER_SIZE`: the alignment-padding advance can
push the cursor up to 8 bytes past `end`, but never further, and the
cursor never drops below `start`.  A call that wraps the 64-bit cursor sum
breaks both monotonicity and the lower bound. -/
theorem C1_cursor_monotone_amended (s : AllocState) (c : Call)
    (hs : ReachableW s) (hc : CallOk c) (hg : CallSumOk c s) :
    s.free_addr ≤ (stepState c s).free_addr ∧
    (stepState c s).start_addr ≤ (stepState c s).free_addr ∧
    (stepState c s).free_addr ≤ (stepState c s).end_addr + HEADER_SIZE := by
  have hi := reachableW_inv hs
  obtain ⟨hinv, hmono⟩ := step_inv hi hc hg
  exact ⟨hmono, hinv.1, hinv.2.1⟩

theorem C1_cursor_monotone_amended_witness :
    (⟨0, 0, 0, fun _ => 0⟩ : AllocState).free_addr ≤
      (stepState (Call.mallocCall 4096 5) ⟨0, 0, 0, fun _ => 0⟩).free_addr ∧
    (stepState (Call.mallocCall 4096 5) ⟨0, 0, 0, fun _ => 0⟩).start_addr ≤
      (stepState (Call.mallocCall 4096 5) ⟨0, 0, 0, fun _ => 0⟩).free_addr ∧
    (stepState (Call.mallocCall 4096 5) ⟨0, 0, 0, fun _ => 0⟩).free_addr ≤
      (stepState (Call.mallocCall 4096 5) ⟨0, 0, 0, fun _ => 0⟩).end_addr + HEADER_SIZE :=
  C1_cursor_monotone_amended ⟨0, 0, 0, fun _ => 0⟩ (Call.mallocCall 4096 5)
    (ReachableW.start _) ⟨by decide, by decide⟩
    (by simp only [CallSumOk, SumOk]; decide)

/-- C2, counterexample: Not every entry point initializes the region:
`free` never calls `init`, so a process whose very first entry-point call
is `free(7)` still has `start_addr = 0` (the unset sentinel) afterwards. -/
theorem C2_init_counterexample :
    (stepState (Call.freeCall 7) ⟨0, 0, 0, fun _ => 0⟩).start_addr = 0 := rfl

/-- C2, amended: `malloc`, `calloc` and `realloc(null, ·)` always leave
the region initialized (`start_addr ≠ 0`), as does the growth path of
`realloc`; but `free` changes nothing at all, and `realloc` with a non-null
pointer and `new_size = 0`, or `0 < new_size ≤` the stored size, returns
with the whole state (hence an unset `start_addr`) unchanged. -/
theorem C2_init_amended (s : AllocState) (h n m p : Nat) (hh : h ≠ 0) :
    (malloc h n s).2.start_addr ≠ 0 ∧
    (calloc h m n s).2.start_addr ≠ 0 ∧
    (realloc h none n s).2.start_addr ≠ 0 ∧
    free p s = s ∧
    (realloc h (some p) 0 s).2 = s ∧
    (0 < n → n ≤ loadSize s.mem (p - HEADER_SIZE) → (realloc h (some p) n s).2 = s) ∧
    (loadSize s.mem (p - HEADER_SIZE) < n →
      (realloc h (some p) n s).2.start_addr ≠ 0) := by
  have hm : ∀ k, (malloc h k s).2.start_addr ≠ 0 := fun k => by
    rw [(malloc_start_end h k s).1]
    exact init_start_ne s hh
  refine ⟨hm n, ?_, hm n, rfl, ?_, ?_, ?_⟩
  · cases hr : (malloc h (m * n % W64) s).1 with
    | some q => rw [calloc_some hr]; exact hm _
    | none => rw [calloc_none hr]; exact hm _
  · rw [realloc_free rfl]
  · intro hn hle
    rw [realloc_keep (Nat.pos_iff_ne_zero.mp hn) hle]
  · intro hgt
    have h0 : n ≠ 0 := by omega
    cases hr : (malloc h n s).1 with
    | some q => rw [realloc_grow_some h0 hgt hr]; exact hm _
    | none => rw [realloc_grow_none h0 hgt hr]; exact hm _

theorem C2_init_amended_witness :
    (malloc 4096 3 ⟨0, 0, 0, fun _ => 0⟩).2.start_addr ≠ 0 ∧
    (calloc 4096 2 3 ⟨0, 0, 0, fun _ => 0⟩).2.start_addr ≠ 0 ∧
    (realloc 4096 none 3 ⟨0, 0, 0, fun _ => 0⟩).2.start_addr ≠ 0 ∧
    free 7 ⟨0, 0, 0, fun _ => 0⟩ = ⟨0, 0, 0, fun _ => 0⟩ ∧
    (realloc 4096 (some 16) 0 ⟨0, 0, 0, fun _ => 0⟩).2 = ⟨0, 0, 0, fun _ => 0⟩ ∧
    (0 < 3 → 3 ≤ loadSize (fun _ => 0) (16 - HEADER_SIZE) →
      (realloc 4096 (some 16) 3 ⟨0, 0, 0, fun _ => 0⟩).2 = ⟨0, 0, 0, fun _ => 0⟩) ∧
    (loadSize (fun _ => 0) (16 - HEADER_SIZE) < 3 →
      (realloc 4096 (some 16) 3 ⟨0, 0, 0, fun _ => 0⟩).2.start_addr ≠ 0) :=
  C2_init_amended ⟨0, 0, 0, fun _ => 0⟩ 4096 3 2 16 (by decide)

/-- C3: Alignment: in any reachable region state with a double-word
aligned `start_addr`, whenever `malloc` returns a non-null payload pointer,
that pointer's address is a multiple of `DBL_WORD_SIZE = 16` (for any
requested size whatsoever, in particular all sizes in `[0, 100]`). -/
theorem C3_alignment (s : AllocState) (h size p : Nat)
    (hs : Reachable s) (hal : s.start_addr % DBL_WORD_SIZE = 0)
    (hp : (malloc h size s).1 = some p) :
    p % DBL_WORD_SIZE = 0 := by
  by_cases h0 : size = 0
  · subst h0
    rw [malloc_zero] at hp
    exact absurd hp (by simp)
  · by_cases hov : toSigned (init h s).end_addr <
        toSigned (((init h s).free_addr + padding (init h s).free_addr +
          (size + HEADER_SIZE) % W64) % W64)
    · rw [malloc_fail h0 hov] at hp
      exact absurd hp (by simp)
    · rw [malloc_succ h0 hov] at hp
      have hp' : (init h s).free_addr + padding (init h s).free_addr + HEADER_SIZE = p :=
        Option.some.inj hp
      have hmod := padding_mod (init h s).free_addr
      simp only [DBL_WORD_SIZE, HEADER_SIZE] at hp' hmod ⊢
      omega

theorem C3_alignment_witness :
    (malloc 4096 5 ⟨0, 0, 0, fun _ => 0⟩).1 = some 4112 ∧ 4112 % DBL_WORD_SIZE = 0 :=
  ⟨by decide,
   C3_alignment ⟨0, 0, 0, fun _ => 0⟩ 4096 5 4112 (Reachable.start _) (by decide)
     (by decide)⟩

/-- C9: Zero-size requests yield null: `malloc(0)` returns null, writes
no header and creates no block (the heap bytes are untouched), and advances
the cursor only by the alignment padding; and `realloc(ptr, 0)` on a
non-null `ptr` calls the (no-op) `free` and returns null, leaving the state
unchanged. -/
theorem C9_zero_size (s : AllocState) (h p : Nat) :
    (malloc h 0 s).1 = none ∧
    (malloc h 0 s).2.free_addr = (init h s).free_addr + padding (init h s).free_addr ∧
    (malloc h 0 s).2.mem = (init h s).mem ∧
    (malloc h 0 s).2.start_addr = (init h s).start_addr ∧
    (malloc h 0 s).2.end_addr = (init h s).end_addr ∧
    realloc h (some p) 0 s = (none, s) := by
  rw [malloc_zero]
  exact ⟨rfl, rfl, rfl, rfl, rfl, realloc_free rfl⟩

/-- C10: The deallocation routine is a no-op: for any argument and any
state, `free` leaves the three region globals and every heap byte exactly
as they were (it performs no validation and no mutation at all). -/
theorem C10_free_noop (p : Nat) (s : AllocState) :
    free p s = s ∧
    (free p s).free_addr = s.free_addr ∧
    (free p s).start_addr = s.start_addr ∧
    (free p s).end_addr = s.end_addr ∧
    ∀ a, (free p s).mem a = s.mem a :=
  ⟨rfl, rfl, rfl, rfl, fun _ => rfl⟩

/-- C5: Shrink/equal identity: when the header before `p` stores `old`
and `0 < new_size ≤ old`, `realloc(p, new_size)` returns `p` itself with
the state (hence the stored size, still `old`) completely unchanged. -/
theorem C5_shrink_identity (s : AllocState) (h p old new_size : Nat)
    (hload : loadSize s.mem (p - HEADER_SIZE) = old)
    (hpos : 0 < new_size) (hle : new_size ≤ old) :
    realloc h (some p) new_size s = (some p, s) ∧
    loadSize (realloc h (some p) new_size s).2.mem (p - HEADER_SIZE) = old := by
  have h0 : new_size ≠ 0 := Nat.pos_iff_ne_zero.mp hpos
  have heq := realloc_keep (s := s) (h := h) (p := p) h0 (by rw [hload]; exact hle)
  exact ⟨heq, by rw [heq]; exact hload⟩

theorem C5_shrink_identity_witness :
    realloc 4096 (some 4112) 7
        ⟨4160, 4096, 4096 + HEAP_SIZE, storeSize (fun _ => 0) 4104 42⟩ =
      (some 4112, ⟨4160, 4096, 4096 + HEAP_SIZE, storeSize (fun _ => 0) 4104 42⟩) ∧
    loadSize
        (realloc 4096 (some 4112) 7
          ⟨4160, 4096, 4096 + HEAP_SIZE, storeSize (fun _ => 0) 4104 42⟩).2.mem
        (4112 - HEADER_SIZE) = 42 :=
  C5_shrink_identity ⟨4160, 4096, 4096 + HEAP_SIZE, storeSize (fun _ => 0) 4104 42⟩
    4096 4112 42 7 (by decide) (by decide) (by decide)

/-- C8: `calloc(nmemb, size)` computes `nmemb * size` in `size_t`
arithmetic (modulo `2 ^ 64`, no overflow check), delegates to `malloc` with
that total, propagates a null result unchanged with no zero-fill, and on a
non-null result zeroes exactly the `total` payload bytes, leaving every
other byte and the cursor as `malloc` left them. -/
theorem C8_calloc_zeroing (s : AllocState) (h nmemb size : Nat) :
    (calloc h nmemb size s).1 = (malloc h (nmemb * size % W64) s).1 ∧
    ((malloc h (nmemb * size % W64) s).1 = none →
      calloc h nmemb size s = malloc h (nmemb * size % W64) s) ∧
    (∀ p, (malloc h (nmemb * size % W64) s).1 = some p →
      (∀ a, p ≤ a → a < p + nmemb * size % W64 → (calloc h nmemb size s).2.mem a = 0) ∧
      (∀ a, a < p ∨ p + nmemb * size % W64 ≤ a →
        (calloc h nmemb size s).2.mem a = (malloc h (nmemb * size % W64) s).2.mem a) ∧
      (calloc h nmemb size s).2.free_addr = (malloc h (nmemb * size % W64) s).2.free_addr) := by
  refine ⟨?_, fun hr => calloc_none hr, fun p hr => ?_⟩
  · cases hr : (malloc h (nmemb * size % W64) s).1 with
    | some q => rw [calloc_some hr]
    | none => rw [calloc_none hr]; exact hr
  · rw [calloc_some hr]
    refine ⟨fun a ha1 ha2 => ?_, fun a ha => ?_, rfl⟩
    · show memset (malloc h (nmemb * size % W64) s).2.mem p 0 (nmemb * size % W64) a = 0
      simp [memset, ha1, ha2]
    · show memset (malloc h (nmemb * size % W64) s).2.mem p 0 (nmemb * size % W64) a =
        (malloc h (nmemb * size % W64) s).2.mem a
      rcases ha with ha | ha
      · simp [memset, Nat.not_le.mpr ha]
      · have : ¬(p ≤ a ∧ a < p + nmemb * size % W64) := by omega
        simp [memset, this]

theorem C8_calloc_zeroing_witness :
    (calloc 4096 3 5 ⟨0, 0, 0, fun _ => 0⟩).2.mem 4120 = 0 :=
  (((C8_calloc_zeroing ⟨0, 0, 0, fun _ => 0⟩ 4096 3 5).2.2) 4112 (by decide)).1 4120
    (by decide) (by decide)

theorem malloc_none_mem {h n : Nat} {s : AllocState}
    (hr : (malloc h n s).1 = none) :
    (malloc h n s).2.mem = (init h s).mem := by
  by_cases h0 : n = 0
  · subst h0
    rw [malloc_zero]
  · by_cases hov : toSigned (init h s).end_addr <
        toSigned (((init h s).free_addr + padding (init h s).free_addr +
          (n + HEADER_SIZE) % W64) % W64)
    · rw [malloc_fail h0 hov]
    · rw [malloc_succ h0 hov] at hr
      exact absurd hr (by simp)

theorem storeSize_outside {m : Nat → Nat} {a v x : Nat}
    (hx : x < a ∨ a + HEADER_SIZE ≤ x) :
    storeSize m a v x = m x := by
  have : ¬(a ≤ x ∧ x < a + HEADER_SIZE) := by omega
  simp [storeSize, this]

theorem memcpy_inside {m : Nat → Nat} {dst src n x : Nat}
    (h1 : dst ≤ x) (h2 : x < dst + n) :
    memcpy m dst src n x = m (src + (x - dst)) := by
  simp [memcpy, h1, h2]

/-- C6, counterexample: The exhaustion check is performed on the
`size_t` value `size + sizeof(header_s)`, which wraps modulo `2 ^ 64`: from
the freshly initialized reachable state (cursor `4104` after padding), the
request `size = 2 ^ 64 - 8` makes `cursor + header_size + size`
mathematically far exceed `end_addr`, yet `malloc` computes
`total_size = 0`, passes the bounds check, and returns a non-null pointer
instead of the claimed null. -/
theorem C6_exhaustion_counterexample :
    Reachable (stepState (Call.mallocCall 4096 0) ⟨0, 0, 0, fun _ => 0⟩) ∧
    0 < 2 ^ 64 - 8 ∧
    (stepState (Call.mallocCall 4096 0) ⟨0, 0, 0, fun _ => 0⟩).end_addr <
      (stepState (Call.mallocCall 4096 0) ⟨0, 0, 0, fun _ => 0⟩).free_addr +
        padding (stepState (Call.mallocCall 4096 0) ⟨0, 0, 0, fun _ => 0⟩).free_addr +
        HEADER_SIZE + (2 ^ 64 - 8) ∧
    (malloc 4096 (2 ^ 64 - 8)
        (stepState (Call.mallocCall 4096 0) ⟨0, 0, 0, fun _ => 0⟩)).1 ≠ none := by
  refine ⟨Reachable.step (Reachable.start _) ⟨by decide, by decide⟩, by decide, ?_, ?_⟩
  · decide
  · decide

/-- C6, amended: For every `size > 0` such that the whole cursor bump
stays in the signed-positive range — padded cursor plus `sizeof(header_s)`
plus `size` below `2 ^ 63`, so neither the `size_t` total nor the 64-bit
cursor sum wraps and the `intptr_t` result stays non-negative — and every
initialized state in which the padded cursor plus header plus `size` would
pass `end_addr`, `malloc` returns null, leaves the cursor exactly at the
padded position, and changes no heap byte (no header is written, so every
previously created block is untouched).  Outside that range the check is
unsound: the 64-bit arithmetic wraps and `malloc` returns non-null. -/
theorem C6_exhaustion_amended (s : AllocState) (h size : Nat)
    (hz : s.start_addr ≠ 0) (hpos : 0 < size)
    (hnw : s.free_addr + padding s.free_addr + HEADER_SIZE + size < 2 ^ 63)
    (hov : s.end_addr < s.free_addr + padding s.free_addr + HEADER_SIZE + size) :
    (malloc h size s).1 = none ∧
    (malloc h size s).2.free_addr = s.free_addr + padding s.free_addr ∧
    (malloc h size s).2.mem = s.mem ∧
    (malloc h size s).2.start_addr = s.start_addr ∧
    (malloc h size s).2.end_addr = s.end_addr := by
  have hini : init h s = s := init_of_ne hz
  have h0 : size ≠ 0 := Nat.pos_iff_ne_zero.mp hpos
  have h8 : HEADER_SIZE = 8 := rfl
  have hW : W64 = 2 ^ 64 := rfl
  have hm1 : (size + HEADER_SIZE) % W64 = size + HEADER_SIZE :=
    Nat.mod_eq_of_lt (by omega)
  have hsum : s.free_addr + padding s.free_addr + (size + HEADER_SIZE) % W64 < 2 ^ 63 := by
    omega
  have hmm : (s.free_addr + padding s.free_addr + (size + HEADER_SIZE) % W64) % W64 =
      s.free_addr + padding s.free_addr + (size + HEADER_SIZE) % W64 :=
    Nat.mod_eq_of_lt (by omega)
  have hend : s.end_addr < 2 ^ 63 := by omega
  have hov' : toSigned (init h s).end_addr <
      toSigned (((init h s).free_addr + padding (init h s).free_addr +
        (size + HEADER_SIZE) % W64) % W64) := by
    rw [hini, hmm, toSigned_of_lt hsum, toSigned_of_lt hend]
    exact_mod_cast (by omega :
      s.end_addr < s.free_addr + padding s.free_addr + (size + HEADER_SIZE) % W64)
  rw [malloc_fail h0 hov', hini]
  exact ⟨rfl, rfl, rfl, rfl, rfl⟩

theorem C6_exhaustion_amended_witness :
    (malloc 4096 (2 ^ 31) ⟨4104, 4096, 4096 + 2 ^ 31, fun _ => 0⟩).1 = none ∧
    (malloc 4096 (2 ^ 31) ⟨4104, 4096, 4096 + 2 ^ 31, fun _ => 0⟩).2.free_addr =
      4104 + padding 4104 ∧
    (malloc 4096 (2 ^ 31) ⟨4104, 4096, 4096 + 2 ^ 31, fun _ => 0⟩).2.mem = (fun _ => 0) ∧
    (malloc 4096 (2 ^ 31) ⟨4104, 4096, 4096 + 2 ^ 31, fun _ => 0⟩).2.start_addr = 4096 ∧
    (malloc 4096 (2 ^ 31) ⟨4104, 4096, 4096 + 2 ^ 31, fun _ => 0⟩).2.end_addr =
      4096 + 2 ^ 31 :=
  C6_exhaustion_amended ⟨4104, 4096, 4096 + 2 ^ 31, fun _ => 0⟩ 4096 (2 ^ 31)
    (by decide) (by decide) (by decide) (by decide)

/-- C4: Growth path of `realloc`: for an initialized state holding a
previously returned block at `p` (header stores `old`, payload entirely
below the cursor) and `new_size > old`, `realloc(p, new_size)` returns
exactly what `malloc(new_size)` returns; on success the new pointer `q`
differs from `p` and the first `old` bytes at `q` equal the first `old`
bytes that were at `p` before the call; on allocation failure it returns
null with every heap byte (in particular the old block) unchanged. -/
theorem C4_grow_copy (s : AllocState) (h p old new_size : Nat)
    (hz : s.start_addr ≠ 0)
    (hload : loadSize s.mem (p - HEADER_SIZE) = old)
    (hbelow : p + old ≤ s.free_addr)
    (hgrow : old < new_size) :
    (realloc h (some p) new_size s).1 = (malloc h new_size s).1 ∧
    (∀ q, (malloc h new_size s).1 = some q →
      q ≠ p ∧
      ∀ i, i < old → (realloc h (some p) new_size s).2.mem (q + i) = s.mem (p + i)) ∧
    ((malloc h new_size s).1 = none →
      (realloc h (some p) new_size s).1 = none ∧
      (realloc h (some p) new_size s).2.mem = s.mem) := by
  have h0 : new_size ≠ 0 := by omega
  have hgt : loadSize s.mem (p - HEADER_SIZE) < new_size := by rw [hload]; exact hgrow
  have hini : init h s = s := init_of_ne hz
  refine ⟨?_, fun q hr => ?_, fun hr => ?_⟩
  · cases hr : (malloc h new_size s).1 with
    | some q => rw [realloc_grow_some h0 hgt hr]
    | none => rw [realloc_grow_none h0 hgt hr]
  · -- on success, locate the new block strictly above the old payload
    by_cases hov : toSigned (init h s).end_addr <
        toSigned (((init h s).free_addr + padding (init h s).free_addr +
          (new_size + HEADER_SIZE) % W64) % W64)
    · rw [malloc_fail h0 hov] at hr
      exact absurd hr (by simp)
    · have hm := malloc_succ (s := s) (h := h) h0 hov
      have hq : q = (init h s).free_addr + padding (init h s).free_addr + HEADER_SIZE := by
        rw [hm] at hr
        exact (Option.some.inj hr).symm
      rw [hini] at hq
      have h8 : HEADER_SIZE = 8 := rfl
      constructor
      · omega
      · intro i hi
        rw [realloc_grow_some h0 hgt hr, hload]
        show memcpy (malloc h new_size s).2.mem q p old (q + i) = s.mem (p + i)
        rw [memcpy_inside (Nat.le_add_right _ _) (by omega)]
        have hd : q + i - q = i := by omega
        rw [hd, hm, hini]
        show storeSize s.mem
            (s.free_addr + padding s.free_addr) new_size (p + i) =
          s.mem (p + i)
        rw [storeSize_outside (Or.inl (by omega))]
  · rw [realloc_grow_none h0 hgt hr]
    refine ⟨rfl, ?_⟩
    show (malloc h new_size s).2.mem = s.mem
    rw [malloc_none_mem hr, hini]

theorem C4_grow_copy_witness :
    4176 ≠ 4112 ∧
    ∀ i, i < 2 →
      (realloc 4096 (some 4112) 75
          ⟨4160, 4096, 4096 + HEAP_SIZE, storeSize (fun _ => 0) 4104 2⟩).2.mem (4176 + i) =
        (⟨4160, 4096, 4096 + HEAP_SIZE, storeSize (fun _ => 0) 4104 2⟩ : AllocState).mem
          (4112 + i) :=
  (C4_grow_copy ⟨4160, 4096, 4096 + HEAP_SIZE, storeSize (fun _ => 0) 4104 2⟩ 4096 4112 2 75
      (by decide) (by decide) (by decide) (by decide)).2.1 4176 (by decide)

/-! ### Allocation traces (for the overlap claim) -/

/-- Run a sequence of `malloc` calls, collecting each successfully returned
payload pointer together with its requested size. -/
def runTrace (h : Nat) : List Nat → AllocState → AllocState × List (Nat × Nat)
  | [], s => (s, [])
  | n :: ns, s =>
    let r := malloc h n s
    let rest := runTrace h ns r.2
    match r.1 with
    | some p => (rest.1, (p, n) :: rest.2)
    | none => rest

/-- Two payload ranges `[p, p + size)` do not intersect. -/
def BlocksDisjoint (b1 b2 : Nat × Nat) : Prop :=
  b1.1 + b1.2 ≤ b2.1 ∨ b2.1 + b2.2 ≤ b1.1

theorem runTrace_cons_some {h n p : Nat} {ns : List Nat} {s : AllocState}
    (hr : (malloc h n s).1 = some p) :
    runTrace h (n :: ns) s =
      ((runTrace h ns (malloc h n s).2).1,
       (p, n) :: (runTrace h ns (malloc h n s).2).2) := by
  simp only [runTrace]
  rw [hr]

theorem runTrace_cons_none {h n : Nat} {ns : List Nat} {s : AllocState}
    (hr : (malloc h n s).1 = none) :
    runTrace h (n :: ns) s = runTrace h ns (malloc h n s).2 := by
  simp only [runTrace]
  rw [hr]

/-- A per-size bound relative to the region's fixed `end_addr` that keeps
the whole cursor bump of a `malloc n` in the signed-positive range. -/
theorem sumOk_of_bound {h n : Nat} {s : AllocState} (hi : Inv s) (hh : MmapOk h)
    (hb : (init h s).end_addr + DBL_WORD_SIZE + n < 2 ^ 63) :
    SumOk h n s := by
  obtain ⟨hii, _, hiz, _⟩ := init_inv hi hh
  have hp := pad_inv hii hiz
  have hF1 : (init h s).free_addr + padding (init h s).free_addr ≤
      (init h s).end_addr + HEADER_SIZE := hp.2.1
  have hml : (n + HEADER_SIZE) % W64 ≤ n + HEADER_SIZE := Nat.mod_le _ _
  have h8 : HEADER_SIZE = 8 := rfl
  have h16 : DBL_WORD_SIZE = 16 := rfl
  show (init h s).free_addr + padding (init h s).free_addr + (n + HEADER_SIZE) % W64 < 2 ^ 63
  omega

/-- The region bounds are fixed once initialized: re-initializing the
post-`malloc` state is a no-op and its `end_addr` is the original one. -/
theorem malloc_init_end (h n : Nat) (s : AllocState) (hh : MmapOk h) :
    (init h (malloc h n s).2).end_addr = (init h s).end_addr := by
  have hz2 : (malloc h n s).2.start_addr ≠ 0 := by
    rw [(malloc_start_end h n s).1]
    exact init_start_ne s hh.1
  rw [init_of_ne hz2]
  exact (malloc_start_end h n s).2

theorem runTrace_inv {h : Nat} (ns : List Nat) (s : AllocState)
    (hi : Inv s) (hh : MmapOk h)
    (hb : ∀ n ∈ ns, (init h s).end_addr + DBL_WORD_SIZE + n < 2 ^ 63) :
    Inv (runTrace h ns s).1 ∧ s.free_addr ≤ (runTrace h ns s).1.free_addr := by
  induction ns generalizing s with
  | nil => exact ⟨hi, Nat.le_refl _⟩
  | cons n ns ih =>
      have hg := sumOk_of_bound hi hh (hb n (List.mem_cons_self n ns))
      obtain ⟨hmi, hmono⟩ := malloc_inv (s := s) (h := h) (n := n) hi hh hg
      have hb' : ∀ m ∈ ns,
          (init h (malloc h n s).2).end_addr + DBL_WORD_SIZE + m < 2 ^ 63 := by
        intro m hm
        rw [malloc_init_end h n s hh]
        exact hb m (List.mem_cons_of_mem _ hm)
      obtain ⟨hti, htmono⟩ := ih (malloc h n s).2 hmi hb'
      cases hr : (malloc h n s).1 with
      | some p =>
          rw [runTrace_cons_some hr]
          exact ⟨hti, Nat.le_trans hmono htmono⟩
      | none =>
          rw [runTrace_cons_none hr]
          exact ⟨hti, Nat.le_trans hmono htmono⟩

/-- A successful `malloc` whose cursor bump stays in the signed-positive
range places its payload strictly above the old cursor and ends with
`payload + size` at most the new cursor. -/
theorem malloc_succ_bounds {h n p : Nat} {s : AllocState}
    (hi : Inv s) (hh : MmapOk h)
    (hb : (init h s).end_addr + DBL_WORD_SIZE + n < 2 ^ 63)
    (hr : (malloc h n s).1 = some p) :
    s.free_addr < p ∧ p + n ≤ (malloc h n s).2.free_addr ∧ n ≠ 0 := by
  have h8 : HEADER_SIZE = 8 := rfl
  have h16 : DBL_WORD_SIZE = 16 := rfl
  have hW : W64 = 2 ^ 64 := rfl
  by_cases h0 : n = 0
  · subst h0
    rw [malloc_zero] at hr
    exact absurd hr (by simp)
  · by_cases hov : toSigned (init h s).end_addr <
        toSigned (((init h s).free_addr + padding (init h s).free_addr +
          (n + HEADER_SIZE) % W64) % W64)
    · rw [malloc_fail h0 hov] at hr
      exact absurd hr (by simp)
    · have hm := malloc_succ (s := s) (h := h) h0 hov
      have hq : p = (init h s).free_addr + padding (init h s).free_addr + HEADER_SIZE := by
        rw [hm] at hr
        exact (Option.some.inj hr).symm
      have hfree : (malloc h n s).2.free_addr =
          ((init h s).free_addr + padding (init h s).free_addr +
            (n + HEADER_SIZE) % W64) % W64 := by
        rw [hm]
      have hg' : (init h s).free_addr + padding (init h s).free_addr +
          (n + HEADER_SIZE) % W64 < 2 ^ 63 := sumOk_of_bound hi hh hb
      have hmm : ((init h s).free_addr + padding (init h s).free_addr +
          (n + HEADER_SIZE) % W64) % W64 =
          (init h s).free_addr + padding (init h s).free_addr + (n + HEADER_SIZE) % W64 :=
        Nat.mod_eq_of_lt (by omega)
      have hmod : (n + HEADER_SIZE) % W64 = n + HEADER_SIZE :=
        Nat.mod_eq_of_lt (by omega)
      have hsf : s.free_addr ≤ (init h s).free_addr := by
        by_cases hz : s.start_addr = 0
        · rw [init_of_eq hz]
          have := (hi.2.2.1 hz).1
          omega
        · rw [init_of_ne hz]
      refine ⟨?_, ?_, h0⟩
      · omega
      · omega

theorem runTrace_blocks {h : Nat} (ns : List Nat) (s : AllocState)
    (hi : Inv s) (hh : MmapOk h)
    (hb : ∀ n ∈ ns, (init h s).end_addr + DBL_WORD_SIZE + n < 2 ^ 63) :
    ∀ b ∈ (runTrace h ns s).2,
      s.free_addr < b.1 ∧ b.1 + b.2 ≤ (runTrace h ns s).1.free_addr ∧ b.2 ≠ 0 := by
  induction ns generalizing s with
  | nil => intro b hb2; exact absurd hb2 (by simp [runTrace])
  | cons n ns ih =>
      intro b hb2
      have hg := sumOk_of_bound hi hh (hb n (List.mem_cons_self n ns))
      obtain ⟨hmi, hmono⟩ := malloc_inv (s := s) (h := h) (n := n) hi hh hg
      have hb' : ∀ m ∈ ns,
          (init h (malloc h n s).2).end_addr + DBL_WORD_SIZE + m < 2 ^ 63 := by
        intro m hm
        rw [malloc_init_end h n s hh]
        exact hb m (List.mem_cons_of_mem _ hm)
      have htmono := (runTrace_inv ns (malloc h n s).2 hmi hh hb').2
      cases hr : (malloc h n s).1 with
      | some p =>
          rw [runTrace_cons_some hr] at hb2 ⊢
          rcases List.mem_cons.mp hb2 with hb2 | hb2
          · obtain ⟨hb1, hbb2, hb3⟩ :=
              malloc_succ_bounds hi hh (hb n (List.mem_cons_self n ns)) hr
            subst hb2
            exact ⟨hb1, Nat.le_trans hbb2 htmono, hb3⟩
          · obtain ⟨hb1, hbb2, hb3⟩ := ih (malloc h n s).2 hmi hb' b hb2
            exact ⟨Nat.lt_of_le_of_lt hmono hb1, hbb2, hb3⟩
      | none =>
          rw [runTrace_cons_none hr] at hb2 ⊢
          obtain ⟨hb1, hbb2, hb3⟩ := ih (malloc h n s).2 hmi hb' b hb2
          exact ⟨Nat.lt_of_le_of_lt hmono hb1, hbb2, hb3⟩

/-- C7, counterexample: The claimed disjointness fails once the
`size_t` total wraps: on a fresh heap at 4096, `malloc(2^64 - 8)` computes
`total_size = 0`, succeeds without moving the cursor past the header slot,
and the very next `malloc(16)` hands out the *same* payload address 4112
again, so the two returned payload ranges overlap. -/
theorem C7_no_overlap_counterexample :
    (runTrace 4096 [2 ^ 64 - 8, 16] ⟨0, 0, 0, fun _ => 0⟩).2 =
      [(4112, 2 ^ 64 - 8), (4112, 16)] ∧
    ¬ BlocksDisjoint (4112, 2 ^ 64 - 8) (4112, 16) := by
  constructor
  · decide
  · intro hd
    rcases hd with hd | hd <;> revert hd <;> decide

/-- C7, amended: Across any sequence of `malloc` calls from a state
reachable without cursor wraparound, provided every requested size `n`
keeps `end_addr + DBL_WORD_SIZE + n` below `2 ^ 63` (so no call's 64-bit
cursor bump wraps or leaves the signed-positive range), the successfully
returned payload ranges `[p, p + size)` are pairwise disjoint and no
payload address is ever returned twice.  A wrapping size defeats this:
the program hands out the same payload address twice. -/
theorem C7_no_overlap_amended (h : Nat) (ns : List Nat) (s : AllocState)
    (hh : MmapOk h) (hs : ReachableW s)
    (hb : ∀ n ∈ ns, (init h s).end_addr + DBL_WORD_SIZE + n < 2 ^ 63) :
    (runTrace h ns s).2.Pairwise
      (fun b1 b2 => BlocksDisjoint b1 b2 ∧ b1.1 ≠ b2.1) := by
  have hi := reachableW_inv hs
  clear hs
  induction ns generalizing s with
  | nil => simp [runTrace]
  | cons n ns ih =>
      have hbn := hb n (List.mem_cons_self n ns)
      have hg := sumOk_of_bound hi hh hbn
      obtain ⟨hmi, hmono⟩ := malloc_inv (s := s) (h := h) (n := n) hi hh hg
      have hb' : ∀ m ∈ ns,
          (init h (malloc h n s).2).end_addr + DBL_WORD_SIZE + m < 2 ^ 63 := by
        intro m hm
        rw [malloc_init_end h n s hh]
        exact hb m (List.mem_cons_of_mem _ hm)
      cases hr : (malloc h n s).1 with
      | some p =>
          rw [runTrace_cons_some hr]
          refine List.Pairwise.cons ?_ (ih (malloc h n s).2 hb' hmi)
          intro b hb2
          obtain ⟨hb1, _, _⟩ :=
            runTrace_blocks ns (malloc h n s).2 hmi hh hb' b hb2
          obtain ⟨_, hp2, hp3⟩ := malloc_succ_bounds hi hh hbn hr
          have hpb : p + n < b.1 := Nat.lt_of_le_of_lt hp2 hb1
          exact ⟨Or.inl (Nat.le_of_lt hpb), by omega⟩
      | none =>
          rw [runTrace_cons_none hr]
          exact ih (malloc h n s).2 hb' hmi

theorem C7_no_overlap_amended_witness :
    (runTrace 4096 [16, 64, 32] ⟨0, 0, 0, fun _ => 0⟩).2.Pairwise
      (fun b1 b2 => BlocksDisjoint b1 b2 ∧ b1.1 ≠ b2.1) :=
  C7_no_overlap_amended 4096 [16, 64, 32] ⟨0, 0, 0, fun _ => 0⟩
    ⟨by decide, by decide⟩ (ReachableW.start _) (by decide)

end PbAlloc
